import Mathlib

/-!
Verification of the pybcli script registry and execution dispatcher.

The development shallowly embeds the pure logic of `pybcli.py`:
the include resolver (`resolve_includes`), the bash-file scanner
(`scan_bash_file` with its annotation and function-definition patterns),
the two-scope registry merge (`load_all_metadata`), the command strings
built by `bash_popen` / `ssh_popen`, the interrupt branch of
`handle_exec`, and the event order of the remote staging path.

File contents are modelled as Lean `String`s, the file system as an
association list from absolute path to content, Python dictionaries as
association lists with first-match lookup and replace-or-append insert.
Regular-expression matching is modelled character by character; the
patterns used by the program are simple enough that greedy matching
without backtracking is exact (each quantified class is disjoint from
the character that must follow it).
-/

set_option maxRecDepth 10000

namespace Pybcli

/-- ASCII whitespace, the characters of the regex class \s (and the ones
    stripped by str.strip) that can occur in the scripts we model. -/
def isSpaceChar (c : Char) : Bool :=
  c = ' ' || c = '\t' || c = '\n' || c = '\r' || c = '\x0b' || c = '\x0c'

/-- ASCII word characters, the regex class \w. -/
def isWordChar (c : Char) : Bool :=
  ('a' ≤ c && c ≤ 'z') || ('A' ≤ c && c ≤ 'Z') || ('0' ≤ c && c ≤ '9') || c = '_'

/-- Length of the longest prefix of the list whose characters satisfy p. -/
def spanLen (p : Char → Bool) : List Char → Nat
  | [] => 0
  | c :: cs => if p c then spanLen p cs + 1 else 0

/-- Python str.strip (restricted to the ASCII whitespace above). -/
def pyStrip (s : String) : String :=
  (((s.data.dropWhile isSpaceChar).reverse.dropWhile isSpaceChar).reverse).asString

/-- Helper for pySplitLines: accumulates the current line in reverse. -/
def splitLinesAux : List Char → List Char → List String
  | [], acc => if acc.isEmpty then [] else [acc.reverse.asString]
  | '\r' :: '\n' :: rest, acc => acc.reverse.asString :: splitLinesAux rest []
  | '\n' :: rest, acc => acc.reverse.asString :: splitLinesAux rest []
  | '\r' :: rest, acc => acc.reverse.asString :: splitLinesAux rest []
  | '\x0b' :: rest, acc => acc.reverse.asString :: splitLinesAux rest []
  | '\x0c' :: rest, acc => acc.reverse.asString :: splitLinesAux rest []
  | c :: rest, acc => splitLinesAux rest (c :: acc)

/-- Python str.splitlines: splits on line terminators, no trailing empty
    line for a trailing terminator. -/
def pySplitLines (s : String) : List String := splitLinesAux s.data []

/-- Python str.startswith, via character lists (String.isPrefixOf has the
    same meaning but is not reducible by the kernel). -/
def strIsPrefixOf (p s : String) : Bool := p.data.isPrefixOf s.data

/-- Python str.split(sep) for a single-character separator: always one
    more piece than separators, empty pieces kept. -/
def splitCharAux (sep : Char) : List Char → List Char → List String
  | [], acc => [acc.reverse.asString]
  | c :: rest, acc =>
    if c = sep then acc.reverse.asString :: splitCharAux sep rest []
    else splitCharAux sep rest (c :: acc)

/-- Python str.split(sep) on a string. -/
def pySplitChar (sep : Char) (s : String) : List String := splitCharAux sep s.data []

/-- Python os.path.dirname: position one past the last slash, or none. -/
def lastSlashPos : List Char → Option Nat
  | [] => none
  | c :: cs =>
    match lastSlashPos cs with
    | some n => some (n + 1)
    | none => if c = '/' then some 0 else none

/-- Python os.path.dirname for POSIX paths: everything up to the last
    slash, with trailing slashes stripped unless the result is all
    slashes. -/
def pyDirname (p : String) : String :=
  match lastSlashPos p.data with
  | none => ""
  | some i =>
    let head := p.data.take (i + 1)
    if head.all (fun c => c = '/') then head.asString
    else ((head.reverse.dropWhile (fun c => c = '/')).reverse).asString

/-- Python os.path.join for two POSIX components: an absolute second
    argument replaces the first. -/
def pyJoin (a b : String) : String :=
  if b.data.head? = some '/' then b
  else if a = "" || a.data.getLast? = some '/' then a ++ b
  else a ++ "/" ++ b

/-- One step of os.path.normpath's component processing, on a reversed
    stack of kept components. -/
def normStep (isAbs : Bool) (stack : List String) (comp : String) : List String :=
  if comp = "" || comp = "." then stack
  else if comp = ".." then
    match stack with
    | [] => if isAbs then [] else [".."]
    | top :: t => if top = ".." then comp :: stack else t
  else comp :: stack

/-- Joins path components with single slashes. -/
def joinSlash : List String → String
  | [] => ""
  | [a] => a
  | a :: b :: t => a ++ "/" ++ joinSlash (b :: t)

/-- Python os.path.normpath for POSIX paths (including the special
    treatment of a path beginning with exactly two slashes). -/
def pyNormpath (p : String) : String :=
  if p = "" then "."
  else
    let isAbs := strIsPrefixOf "/" p
    let slashes :=
      if strIsPrefixOf "//" p && !strIsPrefixOf "///" p then "//"
      else if isAbs then "/" else ""
    let comps := ((pySplitChar '/' p).foldl (normStep isAbs) []).reverse
    let joined := slashes ++ joinSlash comps
    if joined = "" then "." else joined

/-- Python os.path.abspath, modelled as normalisation.  abspath also
    prefixes the process working directory onto a relative argument; the
    embedding covers the invocations of the program in which main_file is
    an absolute path, where the argument of abspath is already absolute. -/
def pyAbspath (p : String) : String := pyNormpath p

/-- The file system: an association list from absolute path to file
    content.  os.path.exists and open are modelled by lookup. -/
abbrev FS := List (String × String)

/-- Looks a path up in the modelled file system. -/
def lookupFS : FS → String → Option String
  | [], _ => none
  | (q, c) :: rest, p => if q = p then some c else lookupFS rest p

/-- os.path.exists restricted to the modelled file system. -/
def existsFS (fs : FS) (p : String) : Bool := (lookupFS fs p).isSome

/-! ### The include statement pattern

`resolve_includes` scans a file's content with the Python regex
`^\s*(?:\.|source)\s+([^\s;]+)` under re.MULTILINE.  Note that only `^`
is affected by MULTILINE: the leading `\s*` may consume newline
characters, so a match can begin on a whitespace-only line earlier than
the line carrying the statement itself.  The embedding reproduces this. -/

/-- One discovered include statement: the 1-based line number computed by
    the program (newlines before the match start, plus one), the recorded
    statement text (group 0 stripped, up to the first semicolon) and the
    path argument (group 1). -/
structure IncMatch where
  lineNumber : Nat
  includeLine : String
  includePath : String
deriving Repr, DecidableEq

/-- Python split(';')[0]: the prefix before the first semicolon. -/
def pySplitSemiHead (s : String) : String :=
  (s.data.takeWhile (fun c => c ≠ ';')).asString

/-- Attempts the include pattern at the current position (which the
    caller guarantees is a line start).  Returns the total matched length
    together with group 0 and group 1 as character lists.  Greedy matching
    is exact here: after each maximal \s run the next required character
    is never whitespace, so the regex engine never backtracks. -/
def tryInclude (s : List Char) : Option (Nat × List Char × List Char) :=
  let w := spanLen isSpaceChar s
  let s1 := s.drop w
  let kw : Option Nat :=
    if s1.head? = some '.' then some 1
    else if "source".data.isPrefixOf s1 then some 6
    else none
  match kw with
  | none => none
  | some k =>
    let s2 := s1.drop k
    let w2 := spanLen isSpaceChar s2
    if w2 = 0 then none
    else
      let s3 := s2.drop w2
      let pl := spanLen (fun c => !isSpaceChar c && c ≠ ';') s3
      if pl = 0 then none
      else
        let total := w + k + w2 + pl
        some (total, s.take total, s3.take pl)

/-- re.finditer for the include pattern: tries each position that is a
    line start, emits non-overlapping matches left to right, and tracks
    the number of newlines before the current position so each match can
    record the program's line number. -/
def scanIncludesAux : Nat → List Char → Nat → Bool → List IncMatch
  | 0, _, _, _ => []
  | fuel + 1, s, nl, atLS =>
    match s with
    | [] => []
    | c :: rest =>
      if atLS then
        match tryInclude s with
        | some (len, g0, g1) =>
          { lineNumber := nl + 1
            includeLine := pySplitSemiHead (pyStrip g0.asString)
            includePath := g1.asString } ::
            scanIncludesAux fuel (s.drop len) (nl + g0.count '\n') false
        | none =>
          scanIncludesAux fuel rest (nl + if c = '\n' then 1 else 0) (c = '\n')
      else scanIncludesAux fuel rest (nl + if c = '\n' then 1 else 0) (c = '\n')

/-- All include-pattern matches of a file content, in order. -/
def findIncludeMatches (content : String) : List IncMatch :=
  scanIncludesAux (content.data.length + 1) content.data 0 true

/-- One record of the list returned by resolve_includes. -/
structure IncRec where
  line_number : Nat
  include_line : String
  include_path : String
  full_path : String
  included_from : String
deriving Repr, DecidableEq

/-- The absolute path a match's argument resolves to:
    os.path.abspath(os.path.join(os.path.dirname(main_file), include_path)). -/
def candPath (mainFile : String) (m : IncMatch) : String :=
  pyAbspath (pyJoin (pyDirname mainFile) m.includePath)

/-- The match list of the file about to be recursed into (the recursive
    call re-opens the file; the guard guarantees it exists). -/
def subMatches (fs : FS) (p : String) : List IncMatch :=
  match lookupFS fs p with
  | some c => findIncludeMatches c
  | none => []

/-- The body of resolve_includes, with the recursion made total by a fuel
    parameter; every recursive call consumes one unit, so fuel bounds the
    call depth.  `resolve_includes` below supplies a fuel value proved
    sufficient (resolveFuel_stable), making the fuel semantically
    invisible.  The per-match steps mirror the Python loop: resolve the
    path against the directory of main_file, skip candidates that do not
    exist or whose absolute path does not start with that directory,
    skip candidates already in seen, otherwise add to seen, emit the
    record, recurse into the included file, then continue with the
    remaining matches and the seen list returned by the recursion. -/
def resolveFuel (fs : FS) (mainFile : String) :
    Nat → String → List IncMatch → List String → List IncRec × List String
  | 0, _, _, seen => ([], seen)
  | _ + 1, _, [], seen => ([], seen)
  | fuel + 1, filePath, m :: rest, seen =>
    if !existsFS fs (candPath mainFile m) ||
        !strIsPrefixOf (pyDirname mainFile) (candPath mainFile m) then
      resolveFuel fs mainFile fuel filePath rest seen
    else if seen.contains (candPath mainFile m) then
      resolveFuel fs mainFile fuel filePath rest seen
    else
      let r1 := resolveFuel fs mainFile fuel (candPath mainFile m)
        (subMatches fs (candPath mainFile m)) (candPath mainFile m :: seen)
      let r2 := resolveFuel fs mainFile fuel filePath rest r1.2
      ({ line_number := m.lineNumber
         include_line := m.includeLine
         include_path := m.includePath
         full_path := candPath mainFile m
         included_from := filePath } :: (r1.1 ++ r2.1), r2.2)

/-- Weight of one file for the fuel bound: its match count plus one. -/
def fileWeight (content : String) : Nat := (findIncludeMatches content).length + 1

/-- Total weight of the files not yet in the seen list. -/
def unseenWeight (fs : FS) (seen : List String) : Nat :=
  ((fs.filter (fun e => !seen.contains e.1)).map (fun e => fileWeight e.2)).sum

/-- A fuel value sufficient for any traversal of fs starting from the
    given match list (proved by resolveFuel_stable). -/
def resolveBound (fs : FS) (ms : List IncMatch) : Nat :=
  ms.length + unseenWeight fs [] + 1

/-- Pybcli.resolve_includes.  The Python function mutates a shared seen
    set and returns the include list; the embedding threads the seen list
    explicitly and returns both.  A missing file yields the empty list
    (the FileNotFoundError branch). -/
def resolve_includes (fs : FS) (mainFile filePath : String) (seen : List String) :
    List IncRec × List String :=
  match lookupFS fs filePath with
  | none => ([], seen)
  | some content =>
    let ms := findIncludeMatches content
    resolveFuel fs mainFile (resolveBound fs ms) filePath ms seen

/-! ### Python dictionaries

Ordered association lists with first-match lookup; assignment replaces
the first occurrence of the key or appends. -/

/-- Dictionary lookup (d[k] / d.get(k)). -/
def dlookup : List (String × α) → String → Option α
  | [], _ => none
  | (k, v) :: t, q => if k = q then some v else dlookup t q

/-- Dictionary assignment d[k] = v. -/
def dinsert : List (String × α) → String → α → List (String × α)
  | [], k, v => [(k, v)]
  | (k', v') :: t, k, v => if k' = k then (k, v) :: t else (k', v') :: dinsert t k v

/-- Python dict.update: assigns every entry of e into d, in order. -/
def dupdate (d e : List (String × α)) : List (String × α) :=
  e.foldl (fun acc kv => dinsert acc kv.1 kv.2) d

/-! ### The bash-file scanner -/

/-- re.match for the per-function annotation pattern
    `#bcli:func\s+(\w+)\s+(.*)` : anchored at the start of the line,
    returning key and value on success.  Lines produced by splitlines
    contain no newline, so `.*` is the rest of the line. -/
def funcAnnotKV (line : String) : Option (String × String) :=
  let s := line.data
  if "#bcli:func".data.isPrefixOf s then
    let s1 := s.drop 10
    let w1 := spanLen isSpaceChar s1
    if w1 = 0 then none
    else
      let s2 := s1.drop w1
      let k := spanLen isWordChar s2
      if k = 0 then none
      else
        let s3 := s2.drop k
        let w2 := spanLen isSpaceChar s3
        if w2 = 0 then none
        else some ((s2.take k).asString, (s3.drop w2).asString)
  else none

/-- The stop test of the upward walk: a line that is not an annotation
    match, is non-blank after stripping, and does not start with '#'. -/
def stopsWalk (line : String) : Bool :=
  (funcAnnotKV line).isNone && pyStrip line ≠ "" && !strIsPrefixOf "#" (pyStrip line)

/-- The upward walk over the lines preceding a function definition
    (already reversed, nearest line first): an annotation match is
    assigned unconditionally into the map, a blank or other comment line
    is skipped, and any other line stops the walk. -/
def walkAnnots : List String → List (String × String) → List (String × String)
  | [], acc => acc
  | line :: rest, acc =>
    match funcAnnotKV line with
    | some kv => walkAnnots rest (dinsert acc kv.1 kv.2)
    | none =>
      if pyStrip line ≠ "" && !strIsPrefixOf "#" (pyStrip line) then acc
      else walkAnnots rest acc

/-- Attempts the function-definition pattern `^\s*(\w+)\s*\(\s*\)\s*\{`
    at the current position, returning the total matched length and the
    function name.  As with the include pattern, greedy matching is
    exact. -/
def tryFuncDef (s : List Char) : Option (Nat × String) :=
  let w := spanLen isSpaceChar s
  let s1 := s.drop w
  let n := spanLen isWordChar s1
  if n = 0 then none
  else
    let s2 := s1.drop n
    let w2 := spanLen isSpaceChar s2
    match (s2.drop w2).head? with
    | some '(' =>
      let s3 := (s2.drop w2).drop 1
      let w3 := spanLen isSpaceChar s3
      match (s3.drop w3).head? with
      | some ')' =>
        let s4 := (s3.drop w3).drop 1
        let w4 := spanLen isSpaceChar s4
        match (s4.drop w4).head? with
        | some '{' => some (w + n + w2 + 1 + w3 + 1 + w4 + 1, (s1.take n).asString)
        | _ => none
      | _ => none
    | _ => none

/-- re.finditer for the function pattern: pairs of (match start, name). -/
def scanFuncsAux : Nat → List Char → Nat → Bool → List (Nat × String)
  | 0, _, _, _ => []
  | fuel + 1, s, pos, atLS =>
    match s with
    | [] => []
    | c :: rest =>
      if atLS then
        match tryFuncDef s with
        | some (len, name) =>
          (pos, name) :: scanFuncsAux fuel (s.drop len) (pos + len) false
        | none => scanFuncsAux fuel rest (pos + 1) (c = '\n')
      else scanFuncsAux fuel rest (pos + 1) (c = '\n')

/-- All function-definition matches of a file content. -/
def funcDefMatches (content : String) : List (Nat × String) :=
  scanFuncsAux (content.data.length + 1) content.data 0 true

/-- The lines preceding a byte position, reversed so that the line
    nearest the position comes first (content[:start].splitlines()
    followed by reverse()). -/
def precedingLines (content : String) (start : Nat) : List String :=
  (pySplitLines ((content.data.take start).asString)).reverse

/-- The annotation map the scanner builds for a function whose
    definition match starts at the given position. -/
def funcAnnotsAt (content : String) (start : Nat) : List (String × String) :=
  walkAnnots (precedingLines content start) []

/-- One entry of the scanner's function list. -/
structure FuncMeta where
  name : String
  annotations : List (String × String)
deriving Repr, DecidableEq

/-- The function-metadata pass of scan_bash_file. -/
def scan_functions (content : String) : List FuncMeta :=
  (funcDefMatches content).map (fun m => ⟨m.2, funcAnnotsAt content m.1⟩)

/-- Attempts the global annotation pattern `#bcli:\s+(\w+)\s+(.*)` at
    the current position (the pattern is unanchored; finditer tries every
    position).  Returns the matched length, key and value. -/
def tryGlobalAnnot (s : List Char) : Option (Nat × String × String) :=
  if "#bcli:".data.isPrefixOf s then
    let s1 := s.drop 6
    let w1 := spanLen isSpaceChar s1
    if w1 = 0 then none
    else
      let s2 := s1.drop w1
      let k := spanLen isWordChar s2
      if k = 0 then none
      else
        let s3 := s2.drop k
        let w2 := spanLen isSpaceChar s3
        if w2 = 0 then none
        else
          let v := spanLen (fun c => c ≠ '\n') (s3.drop w2)
          some (6 + w1 + k + w2 + v, (s2.take k).asString,
                ((s3.drop w2).take v).asString)
  else none

/-- re.finditer for the global annotation pattern, assigning each match
    into the map in order (a later match for the same key overwrites). -/
def scanGlobalsAux : Nat → List Char → List (String × String) → List (String × String)
  | 0, _, acc => acc
  | fuel + 1, s, acc =>
    match s with
    | [] => acc
    | _ :: rest =>
      match tryGlobalAnnot s with
      | some (len, k, v) => scanGlobalsAux fuel (s.drop len) (dinsert acc k v)
      | none => scanGlobalsAux fuel rest acc

/-- The global-annotation map of a file content. -/
def globalAnnots (content : String) : List (String × String) :=
  scanGlobalsAux (content.data.length + 1) content.data []

/-- The metadata dictionary returned by scan_bash_file. -/
structure ScriptMetadata where
  file : String
  global_annotations : List (String × String)
  functions : List FuncMeta
  includes : List IncRec
deriving Repr, DecidableEq

/-- Pybcli.scan_bash_file.  The Python function returns the empty dict
    when the file does not exist (its ScriptNotFound condition, printed
    to stderr); the embedding models that distinguished empty result as
    none.  For an existing file the scan is total whatever the content. -/
def scan_bash_file (fs : FS) (filePath : String) : Option ScriptMetadata :=
  match lookupFS fs filePath with
  | none => none
  | some content =>
    some { file := filePath
           global_annotations := globalAnnots content
           functions := scan_functions content
           includes := (resolve_includes fs filePath filePath []).1 }

/-! ### The two-scope registry merge -/

/-- A registry scope: namespace name to (script id to absolute path). -/
abbrev Registry := List (String × List (String × String))

/-- Pybcli.load_all_metadata: starts from the user (home) scope and folds
    the system scope over it; for a namespace present in both, the system
    scope's file entries are assigned over the home namespace's dict. -/
def load_all_metadata (home sysm : Registry) : Registry :=
  sysm.foldl
    (fun acc e =>
      match dlookup acc e.1 with
      | some files => dinsert acc e.1 (dupdate files e.2)
      | none => dinsert acc e.1 e.2)
    home

/-- The registry lookup interface resolve(namespace, id). -/
def resolveReg (m : Registry) (ns f : String) : Option String :=
  match dlookup m ns with
  | some files => dlookup files f
  | none => none

/-- Keys of an association list are pairwise distinct (always true of a
    list denoting a Python dict). -/
def keysNodup (d : List (String × α)) : Prop := (d.map Prod.fst).Nodup

/-- Both levels of a registry scope have distinct keys. -/
def registryNodup (m : Registry) : Prop :=
  keysNodup m ∧ ∀ e ∈ m, keysNodup e.2

/-! ### Command construction (bash_popen and ssh_popen) -/

/-- Python ' '.join. -/
def pyJoinSpace : List String → String
  | [] => ""
  | [a] => a
  | a :: b :: t => a ++ " " ++ pyJoinSpace (b :: t)

/-- The command string built by Pybcli.bash_popen. -/
def bash_popen_command (file func : String) (args : List String) : String :=
  "set -e; source " ++ file ++ " && " ++ func ++ " " ++ pyJoinSpace args ++ " && wait"

/-- The remote command string built by Pybcli.ssh_popen (note that the
    final " && wait" stands outside the single-quoted inner bash -c
    argument). -/
def ssh_remote_command (remoteTempDir fileBase func : String) (args : List String) : String :=
  "bash -c 'set -e; cd " ++ remoteTempDir ++ " && source " ++ fileBase ++ " && " ++
    func ++ " " ++ pyJoinSpace args ++ "' && wait"

/-- Helper for whitespaceWords: accumulates the current run in reverse. -/
def whitespaceWordsAux : List Char → List Char → List String
  | [], acc => if acc.isEmpty then [] else [acc.reverse.asString]
  | c :: rest, acc =>
    if isSpaceChar c then
      if acc.isEmpty then whitespaceWordsAux rest []
      else acc.reverse.asString :: whitespaceWordsAux rest []
    else whitespaceWordsAux rest (c :: acc)

/-- The maximal whitespace-free runs of a string.  This is only a proof
    device for inverting pyJoinSpace on whitespace-free arguments; no
    model of how the shell parses the command string is attached to it. -/
def whitespaceWords (s : String) : List String := whitespaceWordsAux s.data []

/-! ### The interrupt branch of handle_exec -/

/-- The child-process state observed by the KeyboardInterrupt handler:
    the return code reported by wait() after kill(), and the output still
    buffered on each channel. -/
structure ProcAfterInterrupt where
  returncode : Int
  outRemaining : String
  errRemaining : String
deriving Repr, DecidableEq

/-- The actions of the interrupt handler, in program order. -/
inductive ExecEvent
  | killProc
  | waitProc
  | relayOut (s : String)
  | relayErr (s : String)
deriving Repr, DecidableEq

/-- The event sequence of the except KeyboardInterrupt branch: kill the
    process, wait for it, then print whatever remains on stdout and on
    stderr (each only if non-empty). -/
def interrupt_events (p : ProcAfterInterrupt) : List ExecEvent :=
  [ExecEvent.killProc, ExecEvent.waitProc] ++
    (if p.outRemaining ≠ "" then [ExecEvent.relayOut p.outRemaining] else []) ++
    (if p.errRemaining ≠ "" then [ExecEvent.relayErr p.errRemaining] else [])

/-- The status the invocation resolves with after an interrupt:
    `rc = process.returncode if process.returncode else 130`. -/
def interrupt_rc (p : ProcAfterInterrupt) : Int :=
  if p.returncode ≠ 0 then p.returncode else 130

/-- A normal shell exit code, as delivered by a shell: an integer in
    0..255. -/
def isNormalShellExit (n : Int) : Prop := 0 ≤ n ∧ n ≤ 255

/-! ### The remote staging path of ssh_popen / handle_exec

The model starts from the state in which the control channel has been
opened (the `ssh -MNf -o ControlMaster=yes` run succeeded) and records
the observable steps as events; file-transfer outcomes are injected
through the environment. -/

/-- Observable steps of one remote invocation. -/
inductive RemoteEv
  | chanOpen
  | mkdirTemp
  | scpMain
  | mkdirInc (i : Nat)
  | scpInc (i : Nat)
  | invoke
  | chanClose
deriving Repr, DecidableEq

/-- Failure injection for the staging transfers: the return code of the
    scp of the main file, and of each include transfer in traversal
    order. -/
structure RemoteEnv where
  mainScpRc : Int
  incScpRcs : List Int
deriving Repr, DecidableEq

/-- What ssh_popen returns: a process handle carrying the control path,
    or (on a transfer failure) a bare integer return code. -/
inductive SshPopenResult
  | proc
  | errCode (rc : Int)
deriving Repr, DecidableEq

/-- The include-staging loop: mkdir and scp for each include, aborting
    with the first non-zero scp return code. -/
def stageIncludes : List Int → Nat → List RemoteEv × Option Int
  | [], _ => ([], none)
  | rc :: rest, i =>
    if rc ≠ 0 then ([RemoteEv.mkdirInc i, RemoteEv.scpInc i], some rc)
    else
      let r := stageIncludes rest (i + 1)
      (RemoteEv.mkdirInc i :: RemoteEv.scpInc i :: r.1, r.2)

/-- Pybcli.ssh_popen from the channel-open state: mkdir of the staging
    directory, scp of the main file (returning the bare return code on
    failure), the include-staging loop (likewise), then the remote
    invocation, returning a process handle that carries the control
    path. -/
def ssh_popen_model (env : RemoteEnv) : List RemoteEv × SshPopenResult :=
  if env.mainScpRc ≠ 0 then
    ([RemoteEv.chanOpen, RemoteEv.mkdirTemp, RemoteEv.scpMain], .errCode env.mainScpRc)
  else
    let st := stageIncludes env.incScpRcs 0
    match st.2 with
    | some rc =>
      ([RemoteEv.chanOpen, RemoteEv.mkdirTemp, RemoteEv.scpMain] ++ st.1, .errCode rc)
    | none =>
      ([RemoteEv.chanOpen, RemoteEv.mkdirTemp, RemoteEv.scpMain] ++ st.1 ++
         [RemoteEv.invoke], .proc)

/-- The whole remote invocation as seen by handle_exec: when ssh_popen
    returned a process handle, the finally block issues `ssh -O exit` on
    the recorded control path; when it returned a bare integer, the
    streaming loop raises AttributeError on `process.stdout`, the finally
    block raises again on `process.stdout.close()` before reaching the
    hasattr test, and no close command is ever run. -/
def handle_exec_remote_events (env : RemoteEnv) : List RemoteEv :=
  let r := ssh_popen_model env
  match r.2 with
  | .proc => r.1 ++ [RemoteEv.chanClose]
  | .errCode _ => r.1

/-! ### The --help shortcut of handle_exec -/

/-- Python truthiness of an optional string (None and "" are falsy). -/
def truthyStr : Option String → Bool
  | none => false
  | some s => s ≠ ""

/-- What handle_exec decides to do with the invocation. -/
inductive ExecDecision
  | helpShown
  | spawn (args : List String)
deriving Repr, DecidableEq

/-- The --help shortcut: when the first argument is the literal --help,
    the scanned function list is searched in order and the invocation
    returns 0 at the first function whose name matches and whose 'args'
    annotation is truthy; otherwise (no such function) execution falls
    through and the full argument list is passed to the spawned
    process. -/
def help_decision (functions : List FuncMeta) (func : String) (args : List String) :
    ExecDecision :=
  if args.head? = some "--help" &&
      functions.any (fun fn => fn.name = func && truthyStr (dlookup fn.annotations "args")) then
    .helpShown
  else .spawn args

/-! ### Specification-side notions used to state the claims -/

/-- A path lies within the subtree rooted at dir (the notion the claim
    uses, as opposed to the string-prefix test the program performs). -/
def inSubtree (dir p : String) : Prop :=
  p = dir ∨ strIsPrefixOf (dir ++ "/") p = true

/-- The lines the walk actually scans: the upward prefix up to
    (excluding) the first stopping line. -/
def scannedLines (lines : List String) : List String :=
  lines.takeWhile (fun l => !stopsWalk l)

/-- The annotation value described by the specification: among the
    annotation matches within the scanned prefix, the match farthest from
    the function (last in upward order, hence first after reversing) wins
    for each key. -/
def annotValueSpec (lines : List String) (k : String) : Option String :=
  (((scannedLines lines).reverse.filterMap funcAnnotKV).find?
    (fun kv => kv.1 = k)).map Prod.snd

/-! ## General lemmas -/

theorem contains_iff_mem (l : List String) (x : String) :
    l.contains x = true ↔ x ∈ l := by
  exact List.elem_iff

theorem contains_false_iff_not_mem (l : List String) (x : String) :
    l.contains x = false ↔ x ∉ l := by
  rw [← contains_iff_mem l x]
  cases l.contains x <;> simp

/-! ## The include resolver: fuel adequacy and the traversal invariant -/

theorem resolveFuel_seen_subset (fs : FS) (mainFile : String) :
    ∀ (fuel : Nat) (fp : String) (ms : List IncMatch) (seen : List String),
      seen ⊆ (resolveFuel fs mainFile fuel fp ms seen).2 := by
  intro fuel
  induction fuel with
  | zero => intro fp ms seen; exact fun x hx => hx
  | succ n ih =>
    intro fp ms seen
    cases ms with
    | nil => exact fun x hx => hx
    | cons mt rest =>
      simp only [resolveFuel]
      split_ifs with h1 h2
      · exact ih fp rest seen
      · exact ih fp rest seen
      · intro x hx
        exact ih fp rest _ (ih _ _ _ (List.mem_cons_of_mem _ hx))

theorem unseenWeight_mono (fs : FS) (seen seen' : List String) (h : seen ⊆ seen') :
    unseenWeight fs seen' ≤ unseenWeight fs seen := by
  induction fs with
  | nil => exact Nat.le_refl 0
  | cons e t ih =>
    simp only [unseenWeight, List.filter_cons] at ih ⊢
    by_cases h1 : seen.contains e.1 = true
    · have h2 : seen'.contains e.1 = true := by
        rw [contains_iff_mem] at h1 ⊢
        exact h h1
      simp only [h1, h2, Bool.not_true, Bool.false_eq_true, if_false]
      exact ih
    · have h1' : seen.contains e.1 = false := by
        cases hc : seen.contains e.1
        · rfl
        · exact absurd hc h1
      by_cases h2 : seen'.contains e.1 = true
      · simp only [h1', h2, Bool.not_true, Bool.not_false, Bool.false_eq_true,
          if_false, if_true, List.map_cons, List.sum_cons]
        exact Nat.le_trans ih (Nat.le_add_left _ _)
      · have h2' : seen'.contains e.1 = false := by
          cases hc : seen'.contains e.1
          · rfl
          · exact absurd hc h2
        simp only [h1', h2', Bool.not_false, if_true, List.map_cons, List.sum_cons]
        exact Nat.add_le_add_left ih _

theorem unseenWeight_insert (fs : FS) (seen : List String) (p c : String)
    (hlk : lookupFS fs p = some c) (hns : seen.contains p = false) :
    unseenWeight fs (p :: seen) + fileWeight c ≤ unseenWeight fs seen := by
  induction fs with
  | nil => cases hlk
  | cons e t ih =>
    obtain ⟨q, cq⟩ := e
    simp only [lookupFS] at hlk
    by_cases hq : q = p
    · rw [if_pos hq] at hlk
      injection hlk with hc
      subst hc
      subst hq
      simp only [unseenWeight, List.filter_cons]
      have hL : (q :: seen).contains q = true := by
        rw [contains_iff_mem]
        exact List.mem_cons_self q seen
      simp only [hL, hns, Bool.not_true, Bool.not_false, Bool.false_eq_true,
        if_false, if_true, List.map_cons, List.sum_cons]
      have hm := unseenWeight_mono t seen (q :: seen) (List.subset_cons_of_subset q (fun a ha => ha))
      simp only [unseenWeight] at hm
      omega
    · rw [if_neg hq] at hlk
      have hcq : (p :: seen).contains q = seen.contains q := by
        rw [List.contains_cons]
        have : (q == p) = false := by
          rw [beq_eq_false_iff_ne]
          exact hq
        rw [this, Bool.false_or]
      simp only [unseenWeight, List.filter_cons, hcq]
      by_cases hsq : seen.contains q = true
      · simp only [hsq, Bool.not_true, Bool.false_eq_true, if_false]
        exact ih hlk
      · have hsq' : seen.contains q = false := by
          cases hc : seen.contains q
          · rfl
          · exact absurd hc hsq
        simp only [hsq', Bool.not_false, if_true, List.map_cons, List.sum_cons]
        have := ih hlk
        simp only [unseenWeight] at this
        omega

theorem resolveFuel_stable (fs : FS) (mainFile : String) :
    ∀ (f1 f2 : Nat) (fp : String) (ms : List IncMatch) (seen : List String),
      ms.length + unseenWeight fs seen < f1 →
      ms.length + unseenWeight fs seen < f2 →
      resolveFuel fs mainFile f1 fp ms seen = resolveFuel fs mainFile f2 fp ms seen := by
  intro f1
  induction f1 with
  | zero =>
    intro f2 fp ms seen h1 _
    exact absurd h1 (Nat.not_lt_zero _)
  | succ n ih =>
    intro f2 fp ms seen h1 h2
    cases f2 with
    | zero => exact absurd h2 (Nat.not_lt_zero _)
    | succ m =>
      cases ms with
      | nil => rfl
      | cons mt rest =>
        simp only [List.length_cons] at h1 h2
        by_cases hg : (!existsFS fs (candPath mainFile mt) ||
            !strIsPrefixOf (pyDirname mainFile) (candPath mainFile mt)) = true
        · have e1 : resolveFuel fs mainFile (n + 1) fp (mt :: rest) seen
              = resolveFuel fs mainFile n fp rest seen := by
            simp only [resolveFuel]
            rw [if_pos hg]
          have e2 : resolveFuel fs mainFile (m + 1) fp (mt :: rest) seen
              = resolveFuel fs mainFile m fp rest seen := by
            simp only [resolveFuel]
            rw [if_pos hg]
          rw [e1, e2]
          exact ih m fp rest seen (by omega) (by omega)
        · by_cases hs : seen.contains (candPath mainFile mt) = true
          · have e1 : resolveFuel fs mainFile (n + 1) fp (mt :: rest) seen
                = resolveFuel fs mainFile n fp rest seen := by
              simp only [resolveFuel]
              rw [if_neg hg, if_pos hs]
            have e2 : resolveFuel fs mainFile (m + 1) fp (mt :: rest) seen
                = resolveFuel fs mainFile m fp rest seen := by
              simp only [resolveFuel]
              rw [if_neg hg, if_pos hs]
            rw [e1, e2]
            exact ih m fp rest seen (by omega) (by omega)
          · have hex : existsFS fs (candPath mainFile mt) = true := by
              cases hx : existsFS fs (candPath mainFile mt)
              · exact absurd (by simp [hx]) hg
              · rfl
            obtain ⟨c, hc⟩ : ∃ c, lookupFS fs (candPath mainFile mt) = some c := by
              unfold existsFS at hex
              cases hl : lookupFS fs (candPath mainFile mt) with
              | none => rw [hl] at hex; cases hex
              | some c => exact ⟨c, rfl⟩
            have hnsF : seen.contains (candPath mainFile mt) = false := by
              cases hx : seen.contains (candPath mainFile mt)
              · rfl
              · exact absurd hx hs
            have hsubM : subMatches fs (candPath mainFile mt) = findIncludeMatches c := by
              unfold subMatches
              rw [hc]
            have hins := unseenWeight_insert fs seen (candPath mainFile mt) c hc hnsF
            have hfw : fileWeight c = (findIncludeMatches c).length + 1 := rfl
            have hb1 : (subMatches fs (candPath mainFile mt)).length +
                unseenWeight fs (candPath mainFile mt :: seen) < n := by
              rw [hsubM]
              omega
            have hb2 : (subMatches fs (candPath mainFile mt)).length +
                unseenWeight fs (candPath mainFile mt :: seen) < m := by
              rw [hsubM]
              omega
            have er1 : resolveFuel fs mainFile n (candPath mainFile mt)
                  (subMatches fs (candPath mainFile mt)) (candPath mainFile mt :: seen)
                = resolveFuel fs mainFile m (candPath mainFile mt)
                  (subMatches fs (candPath mainFile mt)) (candPath mainFile mt :: seen) :=
              ih m _ _ _ hb1 hb2
            have hsub2 : (candPath mainFile mt :: seen) ⊆
                (resolveFuel fs mainFile m (candPath mainFile mt)
                  (subMatches fs (candPath mainFile mt)) (candPath mainFile mt :: seen)).2 :=
              resolveFuel_seen_subset fs mainFile m _ _ _
            have hmono := unseenWeight_mono fs (candPath mainFile mt :: seen)
              ((resolveFuel fs mainFile m (candPath mainFile mt)
                (subMatches fs (candPath mainFile mt)) (candPath mainFile mt :: seen)).2) hsub2
            have er2 : resolveFuel fs mainFile n fp rest
                  ((resolveFuel fs mainFile m (candPath mainFile mt)
                    (subMatches fs (candPath mainFile mt)) (candPath mainFile mt :: seen)).2)
                = resolveFuel fs mainFile m fp rest
                  ((resolveFuel fs mainFile m (candPath mainFile mt)
                    (subMatches fs (candPath mainFile mt)) (candPath mainFile mt :: seen)).2) :=
              ih m _ _ _ (by omega) (by omega)
            have e1 : resolveFuel fs mainFile (n + 1) fp (mt :: rest) seen
                = ({ line_number := mt.lineNumber, include_line := mt.includeLine,
                     include_path := mt.includePath, full_path := candPath mainFile mt,
                     included_from := fp } ::
                    ((resolveFuel fs mainFile n (candPath mainFile mt)
                        (subMatches fs (candPath mainFile mt))
                        (candPath mainFile mt :: seen)).1 ++
                     (resolveFuel fs mainFile n fp rest
                        ((resolveFuel fs mainFile n (candPath mainFile mt)
                          (subMatches fs (candPath mainFile mt))
                          (candPath mainFile mt :: seen)).2)).1),
                   (resolveFuel fs mainFile n fp rest
                      ((resolveFuel fs mainFile n (candPath mainFile mt)
                        (subMatches fs (candPath mainFile mt))
                        (candPath mainFile mt :: seen)).2)).2) := by
              simp only [resolveFuel]
              rw [if_neg hg, if_neg hs]
            have e2 : resolveFuel fs mainFile (m + 1) fp (mt :: rest) seen
                = ({ line_number := mt.lineNumber, include_line := mt.includeLine,
                     include_path := mt.includePath, full_path := candPath mainFile mt,
                     included_from := fp } ::
                    ((resolveFuel fs mainFile m (candPath mainFile mt)
                        (subMatches fs (candPath mainFile mt))
                        (candPath mainFile mt :: seen)).1 ++
                     (resolveFuel fs mainFile m fp rest
                        ((resolveFuel fs mainFile m (candPath mainFile mt)
                          (subMatches fs (candPath mainFile mt))
                          (candPath mainFile mt :: seen)).2)).1),
                   (resolveFuel fs mainFile m fp rest
                      ((resolveFuel fs mainFile m (candPath mainFile mt)
                        (subMatches fs (candPath mainFile mt))
                        (candPath mainFile mt :: seen)).2)).2) := by
              simp only [resolveFuel]
              rw [if_neg hg, if_neg hs]
            rw [e1, e2, er1, er2]

theorem resolveFuel_inv (fs : FS) (mainFile : String) :
    ∀ (fuel : Nat) (fp : String) (ms : List IncMatch) (seen : List String),
      ((resolveFuel fs mainFile fuel fp ms seen).1.map IncRec.full_path).Nodup ∧
      (∀ q ∈ (resolveFuel fs mainFile fuel fp ms seen).1.map IncRec.full_path, q ∉ seen) ∧
      (∀ x, x ∈ (resolveFuel fs mainFile fuel fp ms seen).2 ↔
        x ∈ (resolveFuel fs mainFile fuel fp ms seen).1.map IncRec.full_path ∨ x ∈ seen) := by
  intro fuel
  induction fuel with
  | zero =>
    intro fp ms seen
    refine ⟨List.nodup_nil, by simp [resolveFuel], by simp [resolveFuel]⟩
  | succ n ih =>
    intro fp ms seen
    cases ms with
    | nil =>
      refine ⟨List.nodup_nil, by simp [resolveFuel], by simp [resolveFuel]⟩
    | cons mt rest =>
      by_cases hg : (!existsFS fs (candPath mainFile mt) ||
          !strIsPrefixOf (pyDirname mainFile) (candPath mainFile mt)) = true
      · have he : resolveFuel fs mainFile (n + 1) fp (mt :: rest) seen
            = resolveFuel fs mainFile n fp rest seen := by
          simp only [resolveFuel]
          rw [if_pos hg]
        rw [he]
        exact ih fp rest seen
      · by_cases hs : seen.contains (candPath mainFile mt) = true
        · have he : resolveFuel fs mainFile (n + 1) fp (mt :: rest) seen
              = resolveFuel fs mainFile n fp rest seen := by
            simp only [resolveFuel]
            rw [if_neg hg, if_pos hs]
          rw [he]
          exact ih fp rest seen
        · have he : resolveFuel fs mainFile (n + 1) fp (mt :: rest) seen
              = ({ line_number := mt.lineNumber, include_line := mt.includeLine,
                   include_path := mt.includePath, full_path := candPath mainFile mt,
                   included_from := fp } ::
                  ((resolveFuel fs mainFile n (candPath mainFile mt)
                      (subMatches fs (candPath mainFile mt))
                      (candPath mainFile mt :: seen)).1 ++
                   (resolveFuel fs mainFile n fp rest
                      ((resolveFuel fs mainFile n (candPath mainFile mt)
                        (subMatches fs (candPath mainFile mt))
                        (candPath mainFile mt :: seen)).2)).1),
                 (resolveFuel fs mainFile n fp rest
                    ((resolveFuel fs mainFile n (candPath mainFile mt)
                      (subMatches fs (candPath mainFile mt))
                      (candPath mainFile mt :: seen)).2)).2) := by
            simp only [resolveFuel]
            rw [if_neg hg, if_neg hs]
          rw [he]
          have hPseen : candPath mainFile mt ∉ seen := by
            intro hmem
            exact hs ((contains_iff_mem seen _).mpr hmem)
          obtain ⟨nd1, fr1, ch1⟩ := ih (candPath mainFile mt)
            (subMatches fs (candPath mainFile mt)) (candPath mainFile mt :: seen)
          obtain ⟨nd2, fr2, ch2⟩ := ih fp rest
            ((resolveFuel fs mainFile n (candPath mainFile mt)
              (subMatches fs (candPath mainFile mt)) (candPath mainFile mt :: seen)).2)
          simp only [List.map_cons, List.map_append]
          have hPr1 : candPath mainFile mt ∈
              (resolveFuel fs mainFile n (candPath mainFile mt)
                (subMatches fs (candPath mainFile mt)) (candPath mainFile mt :: seen)).2 :=
            (ch1 _).mpr (Or.inr (List.mem_cons_self _ _))
          have hseen_r1 : ∀ x ∈ seen,
              x ∈ (resolveFuel fs mainFile n (candPath mainFile mt)
                (subMatches fs (candPath mainFile mt)) (candPath mainFile mt :: seen)).2 :=
            fun x hx => (ch1 x).mpr (Or.inr (List.mem_cons_of_mem _ hx))
          refine ⟨?_, ?_, ?_⟩
          · rw [List.nodup_cons]
            constructor
            · intro hmem
              rcases List.mem_append.mp hmem with hmem1 | hmem2
              · exact fr1 _ hmem1 (List.mem_cons_self _ _)
              · exact fr2 _ hmem2 hPr1
            · rw [List.nodup_append]
              refine ⟨nd1, nd2, ?_⟩
              intro a ha1 ha2
              exact fr2 a ha2 ((ch1 a).mpr (Or.inl ha1))
          · intro q hq
            rcases List.mem_cons.mp hq with rfl | hq'
            · exact hPseen
            · rcases List.mem_append.mp hq' with hq1 | hq2
              · intro hmem
                exact fr1 q hq1 (List.mem_cons_of_mem _ hmem)
              · intro hmem
                exact fr2 q hq2 (hseen_r1 q hmem)
          · intro x
            rw [ch2 x]
            constructor
            · rintro (hx | hx)
              · exact Or.inl (List.mem_cons_of_mem _ (List.mem_append.mpr (Or.inr hx)))
              · rcases (ch1 x).mp hx with hx1 | hx1
                · exact Or.inl (List.mem_cons_of_mem _ (List.mem_append.mpr (Or.inl hx1)))
                · rcases List.mem_cons.mp hx1 with rfl | hx2
                  · exact Or.inl (List.mem_cons_self _ _)
                  · exact Or.inr hx2
            · rintro (hx | hx)
              · rcases List.mem_cons.mp hx with rfl | hx1
                · exact Or.inr ((ch1 _).mpr (Or.inr (List.mem_cons_self _ _)))
                · rcases List.mem_append.mp hx1 with hx2 | hx2
                  · exact Or.inr ((ch1 _).mpr (Or.inl hx2))
                  · exact Or.inl hx2
              · exact Or.inr (hseen_r1 x hx)

theorem data_append (s t : String) : (s ++ t).data = s.data ++ t.data := by
  cases s; cases t; rfl

theorem data_asString (s : String) : s.data.asString = s := rfl

theorem string_eq_empty_iff (s : String) : s = "" ↔ s.data = [] := by
  cases s
  simp [String.ext_iff]

theorem whitespaceWordsAux_word (w : List Char) (hw : ∀ c ∈ w, isSpaceChar c = false) :
    ∀ rest acc,
      whitespaceWordsAux (w ++ rest) acc = whitespaceWordsAux rest (w.reverse ++ acc) := by
  induction w with
  | nil => intro rest acc; simp
  | cons c w' ih =>
    intro rest acc
    have hc : isSpaceChar c = false := hw c (by simp)
    simp only [List.cons_append, whitespaceWordsAux, hc, Bool.false_eq_true, if_false,
      List.append_eq]
    rw [ih (fun x hx => hw x (by simp [hx]))]
    simp

theorem whitespaceWordsAux_space (acc : List Char) (ha : acc ≠ []) (rest : List Char) :
    whitespaceWordsAux (' ' :: rest) acc = acc.reverse.asString :: whitespaceWordsAux rest [] := by
  simp only [whitespaceWordsAux, isSpaceChar]
  simp [List.isEmpty_iff, ha]

theorem dlookup_dinsert_self (d : List (String × α)) (k : String) (v : α) :
    dlookup (dinsert d k v) k = some v := by
  induction d with
  | nil => simp [dinsert, dlookup]
  | cons e t ih =>
    obtain ⟨k', v'⟩ := e
    by_cases h : k' = k
    · simp [dinsert, dlookup, h]
    · simp [dinsert, dlookup, h, ih]

theorem dlookup_dinsert_ne (d : List (String × α)) (k q : String) (v : α)
    (h : k ≠ q) : dlookup (dinsert d k v) q = dlookup d q := by
  induction d with
  | nil => simp [dinsert, dlookup, h]
  | cons e t ih =>
    obtain ⟨k', v'⟩ := e
    simp only [dinsert]
    by_cases h' : k' = k
    · rw [if_pos h']
      simp only [dlookup]
      rw [if_neg h, if_neg (fun hq => h (h'.symm.trans hq))]
    · rw [if_neg h']
      simp only [dlookup]
      by_cases h'' : k' = q
      · rw [if_pos h'', if_pos h'']
      · rw [if_neg h'', if_neg h'']
        exact ih

theorem dlookup_eq_none_of_not_mem_keys (d : List (String × α)) (k : String)
    (h : k ∉ d.map Prod.fst) : dlookup d k = none := by
  induction d with
  | nil => rfl
  | cons e t ih =>
    simp only [List.map_cons, List.mem_cons, not_or] at h
    obtain ⟨k', v'⟩ := e
    simp only [dlookup]
    rw [if_neg (by simpa using fun hx => h.1 hx.symm)]
    exact ih h.2

theorem dlookup_dupdate_none (d e : List (String × α)) (q : String)
    (he : dlookup e q = none) : dlookup (dupdate d e) q = dlookup d q := by
  induction e generalizing d with
  | nil => rfl
  | cons kv t ih =>
    obtain ⟨k0, v0⟩ := kv
    simp only [dlookup] at he
    by_cases h0 : k0 = q
    · rw [if_pos h0] at he; cases he
    · rw [if_neg h0] at he
      simp only [dupdate, List.foldl_cons]
      have := ih (dinsert d k0 v0) he
      simp only [dupdate] at this
      rw [this, dlookup_dinsert_ne _ _ _ _ h0]

theorem dlookup_dupdate_some (d e : List (String × α)) (q : String) (v : α)
    (he : keysNodup e) (hq : dlookup e q = some v) :
    dlookup (dupdate d e) q = some v := by
  induction e generalizing d with
  | nil => cases hq
  | cons kv t ih =>
    obtain ⟨k0, v0⟩ := kv
    simp only [keysNodup, List.map_cons, List.nodup_cons] at he
    simp only [dlookup] at hq
    by_cases h0 : k0 = q
    · rw [if_pos h0] at hq
      injection hq with hv
      subst hv
      have ht : dlookup t q = none :=
        dlookup_eq_none_of_not_mem_keys t q (h0 ▸ he.1)
      simp only [dupdate, List.foldl_cons]
      have := dlookup_dupdate_none (dinsert d k0 v0) t q ht
      simp only [dupdate] at this
      rw [this, h0, dlookup_dinsert_self]
    · rw [if_neg h0] at hq
      simp only [dupdate, List.foldl_cons]
      have := ih (dinsert d k0 v0) he.2 hq
      simp only [dupdate] at this
      exact this


theorem resolveFuel_sound (fs : FS) (mainFile : String) :
    ∀ (fuel : Nat) (fp : String) (ms : List IncMatch) (seen : List String),
      ∀ inc ∈ (resolveFuel fs mainFile fuel fp ms seen).1,
        existsFS fs inc.full_path = true ∧
        strIsPrefixOf (pyDirname mainFile) inc.full_path = true ∧
        inc.full_path = pyAbspath (pyJoin (pyDirname mainFile) inc.include_path) := by
  intro fuel
  induction fuel with
  | zero =>
    intro fp ms seen inc hinc
    simp [resolveFuel] at hinc
  | succ n ih =>
    intro fp ms seen
    cases ms with
    | nil => intro inc hinc; simp [resolveFuel] at hinc
    | cons mt rest =>
      by_cases hg : (!existsFS fs (candPath mainFile mt) ||
          !strIsPrefixOf (pyDirname mainFile) (candPath mainFile mt)) = true
      · have he : resolveFuel fs mainFile (n + 1) fp (mt :: rest) seen
            = resolveFuel fs mainFile n fp rest seen := by
          simp only [resolveFuel]
          rw [if_pos hg]
        rw [he]
        exact ih fp rest seen
      · by_cases hs : seen.contains (candPath mainFile mt) = true
        · have he : resolveFuel fs mainFile (n + 1) fp (mt :: rest) seen
              = resolveFuel fs mainFile n fp rest seen := by
            simp only [resolveFuel]
            rw [if_neg hg, if_pos hs]
          rw [he]
          exact ih fp rest seen
        · have hex : existsFS fs (candPath mainFile mt) = true := by
            cases hx : existsFS fs (candPath mainFile mt)
            · exact absurd (by simp [hx]) hg
            · rfl
          have hpre : strIsPrefixOf (pyDirname mainFile) (candPath mainFile mt) = true := by
            cases hx : strIsPrefixOf (pyDirname mainFile) (candPath mainFile mt)
            · exact absurd (by simp [hx]) hg
            · rfl
          have he : resolveFuel fs mainFile (n + 1) fp (mt :: rest) seen
              = ({ line_number := mt.lineNumber, include_line := mt.includeLine,
                   include_path := mt.includePath, full_path := candPath mainFile mt,
                   included_from := fp } ::
                  ((resolveFuel fs mainFile n (candPath mainFile mt)
                      (subMatches fs (candPath mainFile mt))
                      (candPath mainFile mt :: seen)).1 ++
                   (resolveFuel fs mainFile n fp rest
                      ((resolveFuel fs mainFile n (candPath mainFile mt)
                        (subMatches fs (candPath mainFile mt))
                        (candPath mainFile mt :: seen)).2)).1),
                 (resolveFuel fs mainFile n fp rest
                    ((resolveFuel fs mainFile n (candPath mainFile mt)
                      (subMatches fs (candPath mainFile mt))
                      (candPath mainFile mt :: seen)).2)).2) := by
            simp only [resolveFuel]
            rw [if_neg hg, if_neg hs]
          rw [he]
          intro inc hinc
          rcases List.mem_cons.mp hinc with rfl | hinc'
          · exact ⟨hex, hpre, rfl⟩
          · rcases List.mem_append.mp hinc' with h1 | h2
            · exact ih _ _ _ inc h1
            · exact ih _ _ _ inc h2

/-! ## C1: termination, deduplication, shared visited set -/

/-- C1: starting the resolver on a file (with the fresh visited list the
    top-level call creates), (i) any fuel at least the computed bound
    yields the very same result — the recursive traversal reaches a fixed
    point, i.e. terminates, even on cyclic include graphs; (ii) the
    resulting records carry pairwise distinct absolute paths, each emitted
    at its first discovery in the depth-first preorder of the definition
    (a record is produced before recursing into its file, and the
    remaining matches are processed after that recursion); (iii) the
    single seen list threaded through the whole traversal ends up holding
    exactly the emitted absolute paths. -/
theorem resolve_includes_terminates_and_dedups (fs : FS) (mainFile filePath : String) :
    (∀ (fuel : Nat) (content : String), lookupFS fs filePath = some content →
      resolveBound fs (findIncludeMatches content) ≤ fuel →
      resolveFuel fs mainFile fuel filePath (findIncludeMatches content) [] =
        resolve_includes fs mainFile filePath []) ∧
    ((resolve_includes fs mainFile filePath []).1.map IncRec.full_path).Nodup ∧
    (∀ x, x ∈ (resolve_includes fs mainFile filePath []).2 ↔
      x ∈ (resolve_includes fs mainFile filePath []).1.map IncRec.full_path) := by
  refine ⟨?_, ?_, ?_⟩
  · intro fuel content hlk hfuel
    unfold resolve_includes
    rw [hlk]
    apply resolveFuel_stable
    · unfold resolveBound at hfuel
      omega
    · unfold resolveBound
      omega
  · unfold resolve_includes
    cases hlk : lookupFS fs filePath with
    | none => exact List.nodup_nil
    | some content => exact (resolveFuel_inv fs mainFile _ _ _ _).1
  · unfold resolve_includes
    cases hlk : lookupFS fs filePath with
    | none => intro x; simp
    | some content =>
      intro x
      rw [(resolveFuel_inv fs mainFile _ _ _ _).2.2 x]
      simp

/-- C1 (witness): the theorem on a concrete cyclic file system in which
    the included file sources the top-level file back; the fuel-bound
    instance is discharged at the bound itself, and the result is
    duplicate-free. -/
theorem resolve_includes_terminates_and_dedups_witness :
    resolveFuel [("/d/s.sh", "source ./a.sh\n"), ("/d/a.sh", "source ./s.sh\n")]
        "/d/s.sh"
        (resolveBound [("/d/s.sh", "source ./a.sh\n"), ("/d/a.sh", "source ./s.sh\n")]
          (findIncludeMatches "source ./a.sh\n"))
        "/d/s.sh" (findIncludeMatches "source ./a.sh\n") [] =
      resolve_includes [("/d/s.sh", "source ./a.sh\n"), ("/d/a.sh", "source ./s.sh\n")]
        "/d/s.sh" "/d/s.sh" [] ∧
    ((resolve_includes [("/d/s.sh", "source ./a.sh\n"), ("/d/a.sh", "source ./s.sh\n")]
        "/d/s.sh" "/d/s.sh" []).1.map IncRec.full_path).Nodup := by
  have h := resolve_includes_terminates_and_dedups
    [("/d/s.sh", "source ./a.sh\n"), ("/d/a.sh", "source ./s.sh\n")] "/d/s.sh" "/d/s.sh"
  exact ⟨h.1 _ "source ./a.sh\n" rfl (Nat.le_refl _), h.2.1⟩

/-! ## C3: candidate filtering -/

/-- C3 (counterexample): the subtree test is a plain string-prefix check
    against the directory of the top-level file, so an include whose
    absolute path lies in a sibling directory sharing that name prefix is
    not discarded: /tmp/ab/x.sh survives the check against /tmp/a and is
    emitted, although it is outside the /tmp/a subtree. -/
theorem sibling_prefix_escapes_subtree :
    (resolve_includes [("/tmp/a/main.sh", "source /tmp/ab/x.sh\n"), ("/tmp/ab/x.sh", "")]
        "/tmp/a/main.sh" "/tmp/a/main.sh" []).1.map IncRec.full_path = ["/tmp/ab/x.sh"] ∧
      ¬inSubtree (pyDirname "/tmp/a/main.sh") "/tmp/ab/x.sh" := by
  refine ⟨rfl, ?_⟩
  intro h
  rcases h with h | h
  · exact absurd h (by decide)
  · exact absurd h (by decide)

/-- C3 (amended): every include statement found anywhere in the traversal
    is resolved against the directory of the top-level file (never the
    directory of the file currently being scanned), and a candidate is
    discarded unless its resolved absolute path exists and has the
    top-level directory as a string prefix; every emitted record passes
    both tests.  (The string-prefix test is weaker than membership in the
    directory subtree, as the counterexample shows.) -/
theorem include_candidates_filtered (fs : FS) (mainFile filePath : String)
    (seen : List String) :
    ∀ inc ∈ (resolve_includes fs mainFile filePath seen).1,
      existsFS fs inc.full_path = true ∧
      strIsPrefixOf (pyDirname mainFile) inc.full_path = true ∧
      inc.full_path = pyAbspath (pyJoin (pyDirname mainFile) inc.include_path) := by
  unfold resolve_includes
  cases hlk : lookupFS fs filePath with
  | none => intro inc hinc; simp at hinc
  | some content => exact resolveFuel_sound fs mainFile _ _ _ _

/-- C3 (witness): the amended theorem at a concrete file system; the
    emitted record for ./lib/a.sh exists, carries the /d prefix, and was
    resolved against the top-level directory. -/
theorem include_candidates_filtered_witness :
    existsFS [("/d/s.sh", "source ./lib/a.sh\n"), ("/d/lib/a.sh", "")] "/d/lib/a.sh" = true ∧
      strIsPrefixOf (pyDirname "/d/s.sh") "/d/lib/a.sh" = true := by
  have h := include_candidates_filtered
    [("/d/s.sh", "source ./lib/a.sh\n"), ("/d/lib/a.sh", "")] "/d/s.sh" "/d/s.sh" []
    { line_number := 1, include_line := "source ./lib/a.sh", include_path := "./lib/a.sh",
      full_path := "/d/lib/a.sh", included_from := "/d/s.sh" }
    (by decide)
  exact ⟨h.1, h.2.1⟩

/-! ## C8: the line number recorded for an include -/

/-- C8 (counterexample): line_number is one plus the number of newlines
    before the start of the regex match, and the match's leading \s* may
    begin on an earlier whitespace-only line (re.MULTILINE affects only
    the anchor, not \s): with a blank first line, the statement on line 2
    is recorded with line_number 1. -/
theorem blank_line_shifts_line_number :
    ((resolve_includes [("/d/s.sh", "\nsource ./A\n"), ("/d/A", "")]
        "/d/s.sh" "/d/s.sh" []).1.map IncRec.line_number = [1]) ∧
      (pySplitLines "\nsource ./A\n")[0]? = some "" ∧
      (pySplitLines "\nsource ./A\n")[1]? = some "source ./A" := by
  refine ⟨rfl, rfl, rfl⟩

/-- C8 (amended): line_number is the 1-based line number at which the
    regex match begins, which is the line of the include statement except
    that a match may start on an earlier run of whitespace-only lines
    directly above the statement; in particular, for a script sourcing
    ./A on line 1 and ./B on line 2 (no preceding blank lines), exactly
    two records are returned, with line numbers 1 and 2 and the absolute
    paths of A and B. -/
theorem two_includes_line_numbers :
    (resolve_includes
        [("/d/s.sh", "source ./A\nsource ./B\n"), ("/d/A", ""), ("/d/B", "")]
        "/d/s.sh" "/d/s.sh" []).1 =
      [{ line_number := 1, include_line := "source ./A", include_path := "./A",
         full_path := "/d/A", included_from := "/d/s.sh" },
       { line_number := 2, include_line := "source ./B", include_path := "./B",
         full_path := "/d/B", included_from := "/d/s.sh" }] := rfl

/-! ## C9: scan fails exactly on a missing file -/

/-- C9: scan_bash_file signals its ScriptNotFound condition (the
    distinguished empty result, modelled as none) exactly when the target
    file does not exist; for an existing file it always produces a
    ScriptMetadata value, whatever the content (the scan is total, so
    malformed content can only yield partial or empty components). -/
theorem scan_fails_iff_file_missing (fs : FS) (p : String) :
    (scan_bash_file fs p).isSome = existsFS fs p ∧
      (scan_bash_file fs p = none ↔ lookupFS fs p = none) := by
  unfold scan_bash_file existsFS
  cases lookupFS fs p <;> simp

/-- C9 (witness): the scan contract at a concrete file system — an
    existing file (with content that defines no function) scans to a
    metadata value, a missing path yields the ScriptNotFound result. -/
theorem scan_fails_iff_file_missing_witness :
    (scan_bash_file [("/d/x.sh", "just text\n")] "/d/x.sh").isSome = true ∧
      scan_bash_file [("/d/x.sh", "just text\n")] "/gone.sh" = none := by
  have h1 := scan_fails_iff_file_missing [("/d/x.sh", "just text\n")] "/d/x.sh"
  have h2 := scan_fails_iff_file_missing [("/d/x.sh", "just text\n")] "/gone.sh"
  exact ⟨h1.1.trans rfl, h2.2.mpr rfl⟩

/-! ## C5: the control channel is leaked on the transfer-failure path -/

/-- C5 (failing input): when the scp of the main script exits non-zero,
    ssh_popen returns the bare return code; handle_exec's streaming loop
    and its finally block both hit AttributeError on the integer, and the
    opened control channel is never closed — chanOpen occurs in the trace
    but chanClose does not. -/
theorem channel_leaked_on_main_transfer_failure :
    handle_exec_remote_events ⟨1, []⟩ =
        [RemoteEv.chanOpen, RemoteEv.mkdirTemp, RemoteEv.scpMain] ∧
      RemoteEv.chanOpen ∈ handle_exec_remote_events ⟨1, []⟩ ∧
      RemoteEv.chanClose ∉ handle_exec_remote_events ⟨1, []⟩ := by
  refine ⟨rfl, ?_, ?_⟩ <;> decide

/-! ## C4: the interrupt branch of handle_exec -/

/-- C4 (counterexample): the status the interrupt handler resolves with
    is not a reserved value distinct from normal shell exit codes — if
    the child is observed with return code 2 (it exited before the kill
    took effect), the invocation resolves with 2, a normal shell exit
    code; different observed codes also yield different resolutions, so
    no single reserved value exists. -/
theorem interrupt_rc_not_reserved :
    interrupt_rc ⟨2, "", ""⟩ = 2 ∧ isNormalShellExit 2 ∧
      interrupt_rc ⟨0, "", ""⟩ = 130 ∧ interrupt_rc ⟨-9, "", ""⟩ = -9 := by
  refine ⟨rfl, ?_, rfl, rfl⟩
  constructor <;> decide

/-- C4 (amended): on an interrupt while the child runs, the handler
    kills the process, then waits synchronously, then relays the
    remaining output of each channel; it resolves with the child's
    observed return code when that is non-zero and with 130 otherwise,
    so only when the child was terminated by the kill signal (negative
    observed code) is the resolution outside the normal shell exit-code
    range. -/
theorem interrupt_handler_behaviour (p : ProcAfterInterrupt) :
    (interrupt_events p).take 2 = [ExecEvent.killProc, ExecEvent.waitProc] ∧
      (p.returncode = 0 → interrupt_rc p = 130) ∧
      (p.returncode ≠ 0 → interrupt_rc p = p.returncode) ∧
      (p.returncode < 0 → ¬isNormalShellExit (interrupt_rc p)) ∧
      (p.outRemaining ≠ "" → ExecEvent.relayOut p.outRemaining ∈ interrupt_events p) ∧
      (p.errRemaining ≠ "" → ExecEvent.relayErr p.errRemaining ∈ interrupt_events p) := by
  unfold interrupt_events interrupt_rc
  refine ⟨rfl, ?_, ?_, ?_, ?_, ?_⟩
  · intro h; simp [h]
  · intro h; simp [h]
  · intro h
    have hne : p.returncode ≠ 0 := by omega
    simp only [hne, if_true, isNormalShellExit, not_and, not_le]
    intro hc; omega
  · intro h; simp [h]
  · intro h; simp [h]

/-- C4 (witness): the amended theorem at a concrete interrupted process
    killed by the signal, with pending output on stdout. -/
theorem interrupt_handler_behaviour_witness :
    interrupt_rc ⟨-9, "tail", ""⟩ = -9 ∧
      ¬isNormalShellExit (interrupt_rc ⟨-9, "tail", ""⟩) ∧
      ExecEvent.relayOut "tail" ∈ interrupt_events ⟨-9, "tail", ""⟩ := by
  have h := interrupt_handler_behaviour ⟨-9, "tail", ""⟩
  exact ⟨h.2.2.1 (by decide), h.2.2.2.1 (by decide), h.2.2.2.2.1 (by decide)⟩

/-! ## C7: argument forwarding in the command strings -/

/-- pyJoinSpace is inverted by taking the maximal whitespace-free runs,
    on lists of non-empty whitespace-free arguments — the space-join
    loses no argument boundary on such lists. -/
theorem pyJoinSpace_roundtrip (args : List String)
    (h : ∀ a ∈ args, a ≠ "" ∧ ∀ c ∈ a.data, isSpaceChar c = false) :
    whitespaceWords (pyJoinSpace args) = args := by
  induction args with
  | nil => rfl
  | cons a rest ih =>
    have ha := h a (by simp)
    have hadata : a.data ≠ [] := by
      intro hd
      exact ha.1 ((string_eq_empty_iff a).mpr hd)
    cases rest with
    | nil =>
      show whitespaceWords (pyJoinSpace [a]) = [a]
      unfold pyJoinSpace whitespaceWords
      rw [show a.data = a.data ++ [] by simp,
        whitespaceWordsAux_word a.data ha.2 [] []]
      simp only [whitespaceWordsAux, List.append_nil, List.isEmpty_iff,
        List.reverse_eq_nil_iff]
      simp [hadata, data_asString]
    | cons b t =>
      show whitespaceWords (pyJoinSpace (a :: b :: t)) = a :: b :: t
      have hrest : whitespaceWords (pyJoinSpace (b :: t)) = b :: t :=
        ih (fun x hx => h x (by simp at hx ⊢; tauto))
      unfold pyJoinSpace whitespaceWords
      rw [show (a ++ " " ++ pyJoinSpace (b :: t)).data
            = a.data ++ (' ' :: (pyJoinSpace (b :: t)).data) by
          rw [data_append, data_append]; simp,
        whitespaceWordsAux_word a.data ha.2,
        whitespaceWordsAux_space _ (by simp [hadata]) _]
      simp only [List.append_nil, List.reverse_reverse, data_asString]
      exact congrArg (a :: ·) hrest

/-- C7 (counterexample): the positional arguments are interpolated into
    the command string joined by single spaces and unquoted, so two
    distinct caller argument lists can produce literally identical local
    and remote commands: the child shell is handed the very same
    invocation for the single argument "a b" as for the two arguments
    "a", "b", so the named function cannot be called with exactly the
    caller's argument list in both cases. -/
theorem args_with_space_not_forwarded_verbatim :
    ["a b"] ≠ ["a", "b"] ∧
      bash_popen_command "/d/f.sh" "g" ["a b"] =
        bash_popen_command "/d/f.sh" "g" ["a", "b"] ∧
      ssh_remote_command "/tmp/x" "f.sh" "g" ["a b"] =
        ssh_remote_command "/tmp/x" "f.sh" "g" ["a", "b"] := by
  refine ⟨?_, rfl, rfl⟩
  decide

/-- C7 (amended): in both local and remote invocation the caller's
    arguments enter the command only through their unquoted single-space
    join placed in the shared fail-fast + source + call + wait template —
    the commands coincide whenever the joins coincide, so the program
    preserves no argument boundaries, quoting or escaping of its own, and
    what the shell makes of the interpolated region (word splitting,
    metacharacters, substitution, globbing) is outside the program's
    control.  The join itself is injective on lists of non-empty,
    whitespace-free arguments: for such lists the command still
    determines the caller's argument list. -/
theorem args_forwarding_through_join (file func dir base : String)
    (args args' : List String)
    (hw : ∀ a ∈ args, a ≠ "" ∧ ∀ c ∈ a.data, isSpaceChar c = false)
    (hw' : ∀ a ∈ args', a ≠ "" ∧ ∀ c ∈ a.data, isSpaceChar c = false) :
    (pyJoinSpace args = pyJoinSpace args' →
      bash_popen_command file func args = bash_popen_command file func args' ∧
      ssh_remote_command dir base func args = ssh_remote_command dir base func args') ∧
    (pyJoinSpace args = pyJoinSpace args' → args = args') := by
  constructor
  · intro hj
    unfold bash_popen_command ssh_remote_command
    rw [hj]
    exact ⟨rfl, rfl⟩
  · intro hj
    have h1 := pyJoinSpace_roundtrip args hw
    have h2 := pyJoinSpace_roundtrip args' hw'
    rw [← h1, ← h2, hj]

/-- C7 (witness): the amended theorem at concrete two-word argument
    lists, exercising both the factorisation and the injectivity
    conjunct. -/
theorem args_forwarding_through_join_witness :
    (pyJoinSpace ["arg1", "arg2"] = pyJoinSpace ["x"] → ["arg1", "arg2"] = ["x"]) ∧
      bash_popen_command "/d/f.sh" "g" ["arg1", "arg2"] =
        bash_popen_command "/d/f.sh" "g" ["arg1", "arg2"] := by
  have h := args_forwarding_through_join "/d/f.sh" "g" "/tmp/x" "f.sh"
    ["arg1", "arg2"] ["x"] (by decide) (by decide)
  have h2 := args_forwarding_through_join "/d/f.sh" "g" "/tmp/x" "f.sh"
    ["arg1", "arg2"] ["arg1", "arg2"] (by decide) (by decide)
  exact ⟨h.2, (h2.1 rfl).1⟩

/-! ## C10: the --help shortcut -/

theorem truthyStr_eq_true_iff (o : Option String) :
    truthyStr o = true ↔ ∃ v, o = some v ∧ v ≠ "" := by
  cases o <;> simp [truthyStr]

theorem help_decision_eq_helpShown_iff (functions : List FuncMeta) (func : String)
    (args : List String) :
    help_decision functions func args = .helpShown ↔
      (args.head? = some "--help" ∧
        ∃ fn ∈ functions, fn.name = func ∧ truthyStr (dlookup fn.annotations "args") = true) := by
  unfold help_decision
  split_ifs with h
  · simp only [Bool.and_eq_true, decide_eq_true_eq, List.any_eq_true] at h
    exact iff_of_true rfl h
  · refine iff_of_false (by simp) ?_
    rintro ⟨h1, fn, hfn, hname, htruthy⟩
    apply h
    simp only [Bool.and_eq_true, decide_eq_true_eq, List.any_eq_true]
    exact ⟨h1, fn, hfn, by simp [hname, htruthy]⟩

/-- C10 (counterexample): a function can carry an 'args' annotation whose
    value is empty (the annotation line "#bcli:func args " matches with
    value ""), and then the check `if args_annotation:` is falsy: the
    --help invocation does not return 0 but falls through and spawns the
    process with --help as an ordinary positional argument. -/
theorem help_with_empty_args_annotation_spawns :
    scan_functions "#bcli:func args \nf() \x7b\n\x7d\n" = [⟨"f", [("args", "")]⟩] ∧
      dlookup (FuncMeta.annotations ⟨"f", [("args", "")]⟩) "args" = some "" ∧
      help_decision (scan_functions "#bcli:func args \nf() \x7b\n\x7d\n") "f" ["--help"] =
        .spawn ["--help"] := by
  refine ⟨rfl, rfl, rfl⟩

/-- C10 (amended): with --help as the first argument, the invocation
    returns 0 without spawning a child exactly when some scanned function
    has the requested name and a non-empty 'args' annotation; when no
    function carries a truthy 'args' annotation under that name (the
    annotation is absent, its value is empty, or the function is not
    found at all) — or when the first argument is not --help — execution
    proceeds and the full argument list, --help included, is forwarded to
    the spawned process. -/
theorem help_decision_behaviour (functions : List FuncMeta) (func : String)
    (args : List String) :
    (args.head? = some "--help" →
      (∃ fn ∈ functions, fn.name = func ∧
          ∃ v, dlookup fn.annotations "args" = some v ∧ v ≠ "") →
      help_decision functions func args = .helpShown) ∧
    ((∀ fn ∈ functions, fn.name = func →
        truthyStr (dlookup fn.annotations "args") = false) →
      help_decision functions func args = .spawn args) ∧
    (args.head? ≠ some "--help" → help_decision functions func args = .spawn args) := by
  refine ⟨?_, ?_, ?_⟩
  · intro h1 h2
    rw [help_decision_eq_helpShown_iff]
    refine ⟨h1, ?_⟩
    obtain ⟨fn, hfn, hname, v, hv, hne⟩ := h2
    exact ⟨fn, hfn, hname, (truthyStr_eq_true_iff _).mpr ⟨v, hv, hne⟩⟩
  · intro h
    unfold help_decision
    split_ifs with hc
    · simp only [Bool.and_eq_true, decide_eq_true_eq, List.any_eq_true] at hc
      obtain ⟨-, fn, hfn, hx1, hx2⟩ := hc
      have hfalse := h fn hfn hx1
      rw [hx2] at hfalse
      cases hfalse
    · rfl
  · intro h
    unfold help_decision
    split_ifs with hc
    · simp only [Bool.and_eq_true, decide_eq_true_eq, List.any_eq_true] at hc
      exact absurd hc.1 h
    · rfl

/-! ## C2: the per-function annotation walk -/

theorem find?_match_append (p : α → Bool) (l1 l2 : List α) :
    (l1 ++ l2).find? p =
      match l1.find? p with
      | some x => some x
      | none => l2.find? p := by
  induction l1 with
  | nil => rfl
  | cons a t ih =>
    by_cases h : p a
    · simp [List.find?_cons, h]
    · simp only [List.cons_append, List.find?_cons, h]
      exact ih

theorem dlookup_dinsert_cases (d : List (String × α)) (k0 q : String) (v0 : α) :
    dlookup (dinsert d k0 v0) q = if k0 = q then some v0 else dlookup d q := by
  by_cases h : k0 = q
  · subst h; rw [if_pos rfl, dlookup_dinsert_self]
  · rw [if_neg h, dlookup_dinsert_ne _ _ _ _ h]

theorem annotValueSpec_cons_annot (l : String) (rest : List String) (kv : String × String)
    (hkv : funcAnnotKV l = some kv) (k : String) :
    annotValueSpec (l :: rest) k =
      match annotValueSpec rest k with
      | some v => some v
      | none => if kv.1 = k then some kv.2 else none := by
  have hstop : stopsWalk l = false := by
    simp [stopsWalk, hkv]
  unfold annotValueSpec scannedLines
  rw [List.takeWhile_cons, hstop]
  simp only [Bool.not_false, if_true, List.reverse_cons, List.filterMap_append,
    List.filterMap_cons, hkv, List.filterMap_nil, find?_match_append]
  cases (List.find? (fun kv => kv.1 = k)
      ((List.takeWhile (fun l => !stopsWalk l) rest).reverse.filterMap funcAnnotKV)) with
  | some x => rfl
  | none =>
    dsimp only
    by_cases hk : kv.1 = k
    · simp [List.find?_cons, hk]
    · simp [List.find?_cons, hk]

theorem walkAnnots_lookup (lines : List String) (k : String) :
    ∀ acc, dlookup (walkAnnots lines acc) k =
      match annotValueSpec lines k with
      | some v => some v
      | none => dlookup acc k := by
  induction lines with
  | nil => intro acc; rfl
  | cons l rest ih =>
    intro acc
    cases hkv : funcAnnotKV l with
    | some kv =>
      have hw : walkAnnots (l :: rest) acc = walkAnnots rest (dinsert acc kv.1 kv.2) := by
        simp [walkAnnots, hkv]
      rw [hw, ih, annotValueSpec_cons_annot l rest kv hkv k]
      cases annotValueSpec rest k with
      | some v => rfl
      | none =>
        dsimp only
        rw [dlookup_dinsert_cases]
        by_cases hk : kv.1 = k
        · simp [hk]
        · simp [hk]
    | none =>
      by_cases hstop : (pyStrip l ≠ "" && !strIsPrefixOf "#" (pyStrip l)) = true
      · have hw : walkAnnots (l :: rest) acc = acc := by
          simp only [walkAnnots, hkv]
          rw [if_pos hstop]
        have hsw : stopsWalk l = true := by
          simp only [stopsWalk, hkv, Option.isNone_none, Bool.true_and]
          exact hstop
        have hsc : annotValueSpec (l :: rest) k = none := by
          unfold annotValueSpec scannedLines
          rw [List.takeWhile_cons, hsw]
          rfl
        rw [hw, hsc]
      · have hw : walkAnnots (l :: rest) acc = walkAnnots rest acc := by
          simp only [walkAnnots, hkv]
          rw [if_neg hstop]
        have hsw : stopsWalk l = false := by
          simp only [stopsWalk, hkv, Option.isNone_none, Bool.true_and]
          exact Bool.not_eq_true _ ▸ (by simpa using hstop)
        have hsc : annotValueSpec (l :: rest) k = annotValueSpec rest k := by
          unfold annotValueSpec scannedLines
          rw [List.takeWhile_cons, hsw]
          simp [List.filterMap_append, hkv]
        rw [hw, hsc, ih]

/-- C2: for every scanned file and every discovered function definition,
    looking a key up in the function's annotation map agrees with the
    upward-walk description: within the prefix of preceding lines that
    ends at the first non-blank, non-comment line, the annotation match
    farthest from the function wins (assignment during the walk is
    unconditional), while blank lines and non-matching comment lines are
    passed over. -/
theorem func_annotation_walk (content : String) (start : Nat) (name k : String)
    (hm : (start, name) ∈ funcDefMatches content) :
    dlookup (funcAnnotsAt content start) k =
      annotValueSpec (precedingLines content start) k := by
  unfold funcAnnotsAt
  rw [walkAnnots_lookup (precedingLines content start) k []]
  cases annotValueSpec (precedingLines content start) k <;> rfl

/-- C2 (witness): the walk theorem on a concrete file containing a
    duplicate key (the farther match, d1, wins over d2), an interleaved
    plain comment and a blank line (which do not stop the walk). -/
theorem func_annotation_walk_witness :
    (89, "foo") ∈ funcDefMatches
        "#bcli:func description d1\n# plain comment\n\n#bcli:func description d2\n#bcli:func args x y\nfoo() \x7b\n\x7d\n" ∧
      dlookup (funcAnnotsAt
        "#bcli:func description d1\n# plain comment\n\n#bcli:func description d2\n#bcli:func args x y\nfoo() \x7b\n\x7d\n" 89)
        "description" = some "d1" ∧
      dlookup (funcAnnotsAt
        "#bcli:func description d1\n# plain comment\n\n#bcli:func description d2\n#bcli:func args x y\nfoo() \x7b\n\x7d\n" 89)
        "args" = some "x y" := by
  refine ⟨by decide, ?_, ?_⟩
  · rw [func_annotation_walk _ 89 "foo" "description" (by decide)]
    rfl
  · rw [func_annotation_walk _ 89 "foo" "args" (by decide)]
    rfl

/-! ## C6: two-scope registry merge -/

theorem resolveReg_load_all (sysm : Registry) (hn : registryNodup sysm)
    (ns f : String) : ∀ home : Registry,
    resolveReg (load_all_metadata home sysm) ns f =
      match resolveReg sysm ns f with
      | some v => some v
      | none => resolveReg home ns f := by
  induction sysm with
  | nil => intro home; rfl
  | cons e t ih =>
    intro home
    obtain ⟨ns0, files0⟩ := e
    obtain ⟨hk, hall⟩ := hn
    simp only [keysNodup, List.map_cons, List.nodup_cons] at hk
    have hnt : registryNodup t := ⟨hk.2, fun x hx => hall x (by simp [hx])⟩
    have hstep : load_all_metadata home ((ns0, files0) :: t) =
        load_all_metadata
          (match dlookup home ns0 with
           | some files => dinsert home ns0 (dupdate files files0)
           | none => dinsert home ns0 files0) t := by
      simp [load_all_metadata]
    rw [hstep, ih hnt]
    by_cases hns : ns0 = ns
    · subst hns
      have htnone : dlookup t ns0 = none :=
        dlookup_eq_none_of_not_mem_keys t ns0 hk.1
      have hreg_t : resolveReg t ns0 f = none := by
        simp [resolveReg, htnone]
      have hreg_s : resolveReg ((ns0, files0) :: t) ns0 f = dlookup files0 f := by
        simp [resolveReg, dlookup]
      rw [hreg_t, hreg_s]
      have hfiles0 : keysNodup files0 := hall (ns0, files0) (by simp)
      cases hh : dlookup home ns0 with
      | some hf =>
        have hd : resolveReg (dinsert home ns0 (dupdate hf files0)) ns0 f =
            dlookup (dupdate hf files0) f := by
          simp [resolveReg, dlookup_dinsert_self]
        dsimp only
        rw [hd]
        cases hf0 : dlookup files0 f with
        | some v =>
          dsimp only
          exact dlookup_dupdate_some hf files0 f v hfiles0 hf0
        | none =>
          dsimp only
          rw [dlookup_dupdate_none hf files0 f hf0]
          simp [resolveReg, hh]
      | none =>
        have hd : resolveReg (dinsert home ns0 files0) ns0 f = dlookup files0 f := by
          simp [resolveReg, dlookup_dinsert_self]
        dsimp only
        rw [hd]
        cases hf0 : dlookup files0 f with
        | some v => dsimp only
        | none =>
          dsimp only
          simp [resolveReg, hh]
    · have hacc : ∀ acc : Registry,
          resolveReg (dinsert acc ns0 files0) ns f = resolveReg acc ns f := by
        intro acc
        simp [resolveReg, dlookup_dinsert_ne _ _ _ _ hns]
      have hacc2 : ∀ (acc : Registry) (fl : List (String × String)),
          resolveReg (dinsert acc ns0 fl) ns f = resolveReg acc ns f := by
        intro acc fl
        simp [resolveReg, dlookup_dinsert_ne _ _ _ _ hns]
      have hhead : resolveReg ((ns0, files0) :: t) ns f = resolveReg t ns f := by
        simp [resolveReg, dlookup, hns]
      rw [hhead]
      cases hh : dlookup home ns0 <;> simp only [hh] <;>
        cases ht : resolveReg t ns f <;> simp [ht, hacc2]

/-- C6: within the merged registry, for a namespace and script id present
    in both scopes the system scope's path wins, and an entry present in
    only one scope resolves to that scope's path unchanged.  (The
    hypothesis records that the system scope denotes a Python dict, whose
    keys are distinct at both levels.) -/
theorem registry_merge_resolution (home sysm : Registry) (ns f : String)
    (hn : registryNodup sysm) :
    (∀ P1 P2, resolveReg home ns f = some P1 → resolveReg sysm ns f = some P2 →
      resolveReg (load_all_metadata home sysm) ns f = some P2) ∧
    (resolveReg sysm ns f = none →
      resolveReg (load_all_metadata home sysm) ns f = resolveReg home ns f) ∧
    (∀ P2, resolveReg home ns f = none → resolveReg sysm ns f = some P2 →
      resolveReg (load_all_metadata home sysm) ns f = some P2) := by
  have hm := resolveReg_load_all sysm hn ns f home
  refine ⟨?_, ?_, ?_⟩
  · intro P1 P2 h1 h2
    rw [hm, h2]
  · intro h2
    rw [hm, h2]
  · intro P2 h1 h2
    rw [hm, h2]

/-- C6 (witness): the merge theorem at concrete registries, exercising
    the conflict case, a home-only entry and a system-only entry. -/
theorem registry_merge_resolution_witness :
    resolveReg (load_all_metadata
        [("ns", [("f", "P1"), ("g", "PG")])]
        [("ns", [("f", "P2")]), ("other", [("h", "PH")])]) "ns" "f" = some "P2" ∧
    resolveReg (load_all_metadata
        [("ns", [("f", "P1"), ("g", "PG")])]
        [("ns", [("f", "P2")]), ("other", [("h", "PH")])]) "ns" "g" = some "PG" ∧
    resolveReg (load_all_metadata
        [("ns", [("f", "P1"), ("g", "PG")])]
        [("ns", [("f", "P2")]), ("other", [("h", "PH")])]) "other" "h" = some "PH" := by
  have hn : registryNodup [("ns", [("f", "P2")]), ("other", [("h", "PH")])] := by
    refine ⟨?_, ?_⟩
    · show (List.map Prod.fst _).Nodup
      decide
    · intro e he
      simp only [List.mem_cons, List.not_mem_nil, or_false] at he
      rcases he with rfl | rfl <;> (show (List.map Prod.fst _).Nodup; decide)
  refine ⟨?_, ?_, ?_⟩
  · exact (registry_merge_resolution _ _ "ns" "f" hn).1 "P1" "P2" rfl rfl
  · exact (registry_merge_resolution _ _ "ns" "g" hn).2.1 rfl
  · exact (registry_merge_resolution _ _ "other" "h" hn).2.2 "PH" rfl rfl

/-- C10 (witness): the amended theorem at a concrete scanned file whose
    function carries a non-empty 'args' annotation, and at one whose
    function has no annotations. -/
theorem help_decision_behaviour_witness :
    help_decision [⟨"f", [("args", "a b")]⟩] "f" ["--help"] = .helpShown ∧
      help_decision [⟨"f", []⟩] "f" ["--help"] = .spawn ["--help"] ∧
      help_decision [⟨"f", [("args", "a b")]⟩] "f" ["x"] = .spawn ["x"] := by
  refine ⟨?_, ?_, ?_⟩
  · exact (help_decision_behaviour [⟨"f", [("args", "a b")]⟩] "f" ["--help"]).1
      (by decide) ⟨⟨"f", [("args", "a b")]⟩, by simp, rfl, "a b", rfl, by decide⟩
  · exact (help_decision_behaviour [⟨"f", []⟩] "f" ["--help"]).2.1 (by decide)
  · exact (help_decision_behaviour [⟨"f", [("args", "a b")]⟩] "f" ["x"]).2.2 (by decide)

end Pybcli
